import Mathlib

/-!
Verification of the irisctl measurement-metadata analysis pipeline.

The definitions below are a shallow embedding of the Go sources:
  * package `common` (MatchTag, MatchState, Measurement, CustomTime),
  * package `analyze` (measSkip, measDuration, initHoursTable,
    analyzeTablesByMeasurement, printTables, printTableDetails,
    parseMeasAgentUUIDs, printAnalysis's duration statistics, which call
    gonum's stat.Quantile with the Empirical cumulant kind),
  * package `meas` (getMeasMdFile's pagination loop).

Go strings are modelled as lists of characters (all strings the analysed
code matches are ASCII, where byte indexing and rune indexing coincide).
Absolute instants are modelled by a rational number of seconds, together
with the calendar fields that the code inspects (year/month/day for the
zero-`time.Time` sentinel test, hour for the hourly grid).
-/

set_option autoImplicit false

namespace Irisctl

/-- Go strings, as lists of characters. -/
abbrev GoStr := List Char

/-- `strings.ToLower` (ASCII case mapping; every tag the program handles is ASCII). -/
def goToLower (s : GoStr) : GoStr := s.map Char.toLower

/-- `strings.Contains(s, sub)`: some contiguous run of `s` equals `sub`. -/
def goContains : GoStr → GoStr → Bool
  | [], sub => sub.isPrefixOf []
  | c :: t, sub => sub.isPrefixOf (c :: t) || goContains t sub

/-- `goContains` decides the `List.IsInfix` relation. -/
theorem goContains_iff (s sub : GoStr) : goContains s sub = true ↔ sub <:+: s := by
  induction s with
  | nil =>
    simp [goContains, List.isPrefixOf_iff_prefix]
  | cons c t ih =>
    simp only [goContains, Bool.or_eq_true, List.isPrefixOf_iff_prefix, ih]
    constructor
    · rintro (h | h)
      · exact h.isInfix
      · exact h.trans (List.suffix_cons c t).isInfix
    · rintro ⟨u, v, huv⟩
      match u with
      | [] => exact Or.inl ⟨v, by simpa using huv⟩
      | _ :: u' =>
        right
        rw [List.cons_append] at huv
        exact ⟨u', v, by injection huv⟩

/-- The slice of Go's `time.Time` that the analysed code observes:
the calendar fields it reads plus the absolute instant (in seconds)
that `After`, `Before` and `Sub` compare. -/
structure GoTime where
  year : Int
  month : Nat
  day : Nat
  hour : Nat
  sec : ℚ
deriving DecidableEq, Repr

/-- `t.After(u)`. -/
def timeAfter (t u : GoTime) : Bool := decide (u.sec < t.sec)

/-- `t.Before(u)`. -/
def timeBefore (t u : GoTime) : Bool := decide (t.sec < u.sec)

/-- `t.Sub(u)` converted to seconds (`.Seconds()`). -/
def timeSub (t u : GoTime) : ℚ := t.sec - u.sec

/-- The zero-`time.Time` sentinel test used by `measDuration`:
`Year() == 1 && Month() == 1 && Day() == 1`. -/
def isZeroYMD (t : GoTime) : Bool := t.year == 1 && t.month == 1 && t.day == 1

/-- The fields of `common.Agent` the analysis reads. -/
structure Agent where
  agentUUID : GoStr
  state : GoStr
deriving DecidableEq, Repr

/-- `common.Measurement`. -/
structure Measurement where
  tool : GoStr
  tags : List GoStr
  uuid : GoStr
  userID : GoStr
  creationTime : GoTime
  startTime : GoTime
  endTime : GoTime
  state : GoStr
  agents : List Agent
deriving DecidableEq, Repr

/-- `common.MatchState`: membership of the measurement state in the list. -/
def MatchState (mState : GoStr) (states : List GoStr) : Bool :=
  states.any (fun state => state == mState)

/-- One iteration's `found` value in `common.MatchTag`: whether some
measurement tag, lowered, contains the (unaltered) filter tag. -/
def matchOneTag (mTags : List GoStr) (tag : GoStr) : Bool :=
  mTags.any (fun measTag => goContains (goToLower measTag) tag)

/-- The loop of `common.MatchTag`, carrying `found` across iterations.
`found && !tagsAnd` returns true early; `!found && tagsAnd` returns false
early; the final `found` is returned once the tag list is exhausted. -/
def matchTagLoop (mTags : List GoStr) (tagsAnd found : Bool) : List GoStr → Bool
  | [] => found
  | tag :: rest =>
    let f := matchOneTag mTags tag
    if f && !tagsAnd then true
    else if !f && tagsAnd then false
    else matchTagLoop mTags tagsAnd f rest

/-- `common.MatchTag(mTags, tags, tagsAnd)` (`found` starts out false). -/
def MatchTag (mTags tags : List GoStr) (tagsAnd : Bool) : Bool :=
  matchTagLoop mTags tagsAnd false tags

/-- The filter state assembled from the analyze command's flags:
`--after`, `--before`, `--state`, `--tag`, `--tags-and`. -/
structure AnalyzeFilter where
  after : GoTime
  before : GoTime
  states : List GoStr
  tags : List GoStr
  tagsAnd : Bool

/-- `analyze.measSkip`, check for check in source order. -/
def measSkip (f : AnalyzeFilter) (m : Measurement) : Bool :=
  if decide (0 < f.tags.length) && !(MatchTag m.tags f.tags f.tagsAnd) then true
  else if decide (0 < f.states.length) && !(MatchState m.state f.states) then true
  else if !(timeAfter m.creationTime f.after) || !(timeBefore m.creationTime f.before) then true
  else false

/-- In conjunctive mode the `MatchTag` loop computes `List.all` of the
per-tag checks (the carried `found` only surfaces on an empty tag list). -/
theorem matchTagLoop_and (mTags : List GoStr) (found : Bool) (tags : List GoStr) :
    matchTagLoop mTags true found tags =
      if tags.isEmpty then found else tags.all (matchOneTag mTags) := by
  induction tags generalizing found with
  | nil => rfl
  | cons t rest ih =>
    simp only [matchTagLoop, Bool.not_true, Bool.and_false, List.isEmpty_cons,
      if_false, Bool.false_eq_true, Bool.not_eq_true', Bool.and_true, List.all_cons]
    cases h : matchOneTag mTags t with
    | false => simp
    | true => rw [if_neg (by simp), ih]; cases rest <;> simp

/-- In disjunctive mode the `MatchTag` loop computes `List.any` of the
per-tag checks (the carried `found` only surfaces on an empty tag list). -/
theorem matchTagLoop_or (mTags : List GoStr) (found : Bool) (tags : List GoStr) :
    matchTagLoop mTags false found tags =
      if tags.isEmpty then found else tags.any (matchOneTag mTags) := by
  induction tags generalizing found with
  | nil => rfl
  | cons t rest ih =>
    simp only [matchTagLoop, Bool.not_false, Bool.and_true, List.isEmpty_cons,
      Bool.false_eq_true, Bool.and_false, List.any_cons]
    cases h : matchOneTag mTags t with
    | false => rw [if_neg (by simp), if_neg (by simp), ih]; cases rest <;> simp
    | true => simp

/-- C1: a measurement record passes `measSkip` (is not skipped) iff its
creation time is strictly after the filter's `after` bound and strictly
before its `before` bound, its state is unconstrained or a member of the
filter's states, and the filter's tag list is empty or the code's
tag-combination rule (`common.MatchTag`) holds; in particular a record
whose creation time equals either bound is skipped. -/
theorem measSkip_false_iff (f : AnalyzeFilter) (m : Measurement) :
    (measSkip f m = false ↔
      f.after.sec < m.creationTime.sec ∧ m.creationTime.sec < f.before.sec ∧
        (f.states = [] ∨ MatchState m.state f.states = true) ∧
        (f.tags = [] ∨ MatchTag m.tags f.tags f.tagsAnd = true))
    ∧ ((m.creationTime.sec = f.after.sec ∨ m.creationTime.sec = f.before.sec) →
        measSkip f m = true) := by
  have hmain : measSkip f m = false ↔
      f.after.sec < m.creationTime.sec ∧ m.creationTime.sec < f.before.sec ∧
        (f.states = [] ∨ MatchState m.state f.states = true) ∧
        (f.tags = [] ∨ MatchTag m.tags f.tags f.tagsAnd = true) := by
    unfold measSkip
    split_ifs with h1 h2 h3
    · simp only [Bool.and_eq_true, decide_eq_true_eq, Bool.not_eq_true',
        List.length_pos] at h1
      simp only [Bool.true_eq_false, false_iff]
      rintro ⟨-, -, -, (ht | ht)⟩
      · exact h1.1 ht
      · rw [h1.2] at ht; cases ht
    · simp only [Bool.and_eq_true, decide_eq_true_eq, Bool.not_eq_true',
        List.length_pos] at h2
      simp only [Bool.true_eq_false, false_iff]
      rintro ⟨-, -, (hs | hs), -⟩
      · exact h2.1 hs
      · rw [h2.2] at hs; cases hs
    · simp only [Bool.or_eq_true, Bool.not_eq_true', timeAfter, timeBefore,
        decide_eq_false_iff_not, not_lt] at h3
      simp only [Bool.true_eq_false, false_iff]
      rintro ⟨ha, hb, -, -⟩
      rcases h3 with h3 | h3
      · exact absurd ha (not_lt.mpr h3)
      · exact absurd hb (not_lt.mpr h3)
    · simp only [Bool.and_eq_true, decide_eq_true_eq, Bool.not_eq_true',
        List.length_pos] at h1 h2
      simp only [Bool.or_eq_true, Bool.not_eq_true', timeAfter, timeBefore,
        decide_eq_false_iff_not, not_lt] at h3
      push_neg at h1 h2 h3
      simp only [eq_self_iff_true, true_iff]
      refine ⟨h3.1, h3.2, ?_, ?_⟩
      · by_cases hs : f.states = []
        · exact Or.inl hs
        · exact Or.inr (by simpa using h2 hs)
      · by_cases ht : f.tags = []
        · exact Or.inl ht
        · exact Or.inr (by simpa using h1 ht)
  refine ⟨hmain, fun hb => ?_⟩
  cases hskip : measSkip f m with
  | true => rfl
  | false =>
    rcases hmain.mp hskip with ⟨ha, hb', -, -⟩
    rcases hb with hb | hb
    · exact absurd ha (by rw [hb]; exact lt_irrefl _)
    · exact absurd hb' (by rw [hb]; exact lt_irrefl _)

/-- C1 witness: a concrete record whose creation time equals the filter's
`after` bound is skipped. -/
theorem measSkip_false_iff_witness :
    measSkip ⟨⟨2020, 1, 1, 0, 5⟩, ⟨2021, 1, 1, 0, 9⟩, [], [], false⟩
      ⟨[], [], [], [], ⟨2020, 1, 1, 0, 5⟩, ⟨2020, 1, 1, 1, 6⟩, ⟨2020, 1, 1, 2, 7⟩,
        ['o','n','g','o','i','n','g'], []⟩ = true :=
  (measSkip_false_iff _ _).2 (Or.inl rfl)

/-- C2 counterexample: `common.MatchTag` lowercases only the record tag,
so the uppercase filter tag `"ZEPH"` does not match the record tag
`"zeph"`, which differs only in case — in either combination mode. -/
theorem matchTag_uppercase_filter_cex :
    MatchTag [['z','e','p','h']] [['Z','E','P','H']] false = false ∧
    MatchTag [['z','e','p','h']] [['Z','E','P','H']] true = false := by
  exact ⟨rfl, rfl⟩

/-- C2 amended: for a non-empty filter tag list, a filter tag matches a
record iff it occurs verbatim as a substring of some record tag lowered
(so matching is insensitive to the record tag's case but not to the
filter tag's); with `tagsAnd` set every filter tag must find a match, and
with it unset one matching filter tag suffices. -/
theorem matchTag_charact (mTags tags : List GoStr) (b : Bool) (h : tags ≠ []) :
    MatchTag mTags tags b = true ↔
      (if b then ∀ tag ∈ tags, ∃ measTag ∈ mTags, tag <:+: goToLower measTag
       else ∃ tag ∈ tags, ∃ measTag ∈ mTags, tag <:+: goToLower measTag) := by
  have hne : tags.isEmpty = false := by
    cases tags with
    | nil => exact absurd rfl h
    | cons t rest => rfl
  cases b
  · rw [MatchTag, matchTagLoop_or, if_neg (by simp [hne])]
    simp [List.any_eq_true, matchOneTag, goContains_iff]
  · rw [MatchTag, matchTagLoop_and, if_neg (by simp [hne])]
    simp [List.all_eq_true, matchOneTag, goContains_iff]

/-- C2 witness: the lowercase filter tag `"zeph"` matches the record tag
`"ZEPH-GCP"` in disjunctive mode. -/
theorem matchTag_charact_witness :
    MatchTag [['Z','E','P','H','-','G','C','P']] [['z','e','p','h']] false = true := by
  apply (matchTag_charact [['Z','E','P','H','-','G','C','P']] [['z','e','p','h']] false
    (by simp)).mpr
  simp only [Bool.false_eq_true, if_false]
  exact ⟨['z','e','p','h'], by simp, ['Z','E','P','H','-','G','C','P'], by simp,
    [], ['-','g','c','p'], rfl⟩

/-- With a single filter tag, `MatchTag` degenerates to the per-tag check
in either combination mode. -/
theorem matchTag_singleton (mTags : List GoStr) (t : GoStr) (b : Bool) :
    MatchTag mTags [t] b = matchOneTag mTags t := by
  cases b <;> cases h : matchOneTag mTags t <;>
    simp [MatchTag, matchTagLoop, h]

/-- A record that carries an all-lowercase tag verbatim matches the
singleton filter consisting of that tag. -/
theorem matchTag_of_mem (mTags : List GoStr) (t : GoStr) (b : Bool)
    (hmem : t ∈ mTags) (hlow : goToLower t = t) :
    MatchTag mTags [t] b = true := by
  rw [matchTag_singleton]
  simp only [matchOneTag, List.any_eq_true]
  exact ⟨t, hmem, by rw [hlow, goContains_iff]⟩

/-- Result of `analyze.measDuration`: the constants `DurationNone`,
`DurationTooLong`, `DurationOK`. -/
inductive DurClass where
  | durationNone
  | durationTooLong
  | durationOK
deriving DecidableEq, Repr

/-- The two module-level duration sample lists `durationCS` (creation to
start) and `durationSE` (start to end), in seconds. -/
structure DurState where
  durationCS : List ℚ
  durationSE : List ℚ
deriving DecidableEq, Repr

/-- The tag `"zeph-gcp-daily.json"`. -/
def dailyTag : GoStr :=
  ['z','e','p','h','-','g','c','p','-','d','a','i','l','y','.','j','s','o','n']

/-- The tag `"collection:exhaustive"`. -/
def exhaustiveTag : GoStr :=
  ['c','o','l','l','e','c','t','i','o','n',':','e','x','h','a','u','s','t','i','v','e']

/-- The tag classes of `measDuration` paired with their `expectedDuration`
ceilings in hours (`{5, 24}`). -/
def durationClasses : List (GoStr × ℚ) := [(dailyTag, 5), (exhaustiveTag, 24)]

/-- The threshold loop of `measDuration`: return `TooLong` on the first
class whose tag matches and whose ceiling (converted to seconds) is
strictly exceeded by the start-to-end duration `se`. -/
def checkTooLong (tagsAnd : Bool) (mTags : List GoStr) (se : ℚ) :
    List (GoStr × ℚ) → Bool
  | [] => false
  | (t, hrs) :: rest =>
    (MatchTag mTags [t] tagsAnd && decide (hrs * 3600 < se)) ||
      checkTooLong tagsAnd mTags se rest

/-- `analyze.measDuration`, as a transformer of the sample-list state:
sentinel timestamps short-circuit to `DurationNone` without touching the
lists; otherwise one sample is appended to each list and the tag classes
are checked. -/
def measDuration (tagsAnd : Bool) (m : Measurement) (st : DurState) :
    DurClass × DurState :=
  if isZeroYMD m.creationTime then (.durationNone, st)
  else if isZeroYMD m.startTime then (.durationNone, st)
  else if isZeroYMD m.endTime then (.durationNone, st)
  else
    let st' : DurState :=
      ⟨st.durationCS ++ [timeSub m.startTime m.creationTime],
       st.durationSE ++ [timeSub m.endTime m.startTime]⟩
    if checkTooLong tagsAnd m.tags (timeSub m.endTime m.startTime) durationClasses
    then (.durationTooLong, st')
    else (.durationOK, st')

/-- C4: a record carrying the daily-class tag with non-sentinel
timestamps classifies `OK` at a start-to-end duration of exactly 5 hours
(18000 s: the threshold comparison is strict) and `TooLong` at 5 hours
and 1 second (18001 s). -/
theorem measDuration_daily_threshold (b : Bool) (m : Measurement) (st : DurState)
    (hmem : dailyTag ∈ m.tags)
    (hc : isZeroYMD m.creationTime = false) (hs : isZeroYMD m.startTime = false)
    (he : isZeroYMD m.endTime = false) :
    (timeSub m.endTime m.startTime = 18000 →
      (measDuration b m st).1 = DurClass.durationOK) ∧
    (timeSub m.endTime m.startTime = 18001 →
      (measDuration b m st).1 = DurClass.durationTooLong) := by
  unfold measDuration
  rw [hc, hs, he]
  simp only [Bool.false_eq_true, if_false]
  constructor
  · intro hse
    rw [hse]
    have h5 : ((5 : ℚ) * 3600 < 18000) = False := by norm_num
    have h24 : ((24 : ℚ) * 3600 < 18000) = False := by norm_num
    simp [durationClasses, checkTooLong, h5, h24]
  · intro hse
    rw [hse]
    have h5 : ((5 : ℚ) * 3600 < 18001) = True := by norm_num
    simp [durationClasses, checkTooLong, h5,
      matchTag_of_mem m.tags dailyTag b hmem rfl]

/-- C4 witness: concrete daily-tagged records at start-to-end durations
18000 s and 18001 s classify `OK` and `TooLong` respectively. -/
theorem measDuration_daily_threshold_witness :
    (measDuration false
      ⟨[], [dailyTag], [], [], ⟨2024, 1, 1, 0, 0⟩, ⟨2024, 1, 1, 0, 0⟩,
        ⟨2024, 1, 1, 5, 18000⟩, [], []⟩ ⟨[], []⟩).1 = DurClass.durationOK ∧
    (measDuration false
      ⟨[], [dailyTag], [], [], ⟨2024, 1, 1, 0, 0⟩, ⟨2024, 1, 1, 0, 0⟩,
        ⟨2024, 1, 1, 5, 18001⟩, [], []⟩ ⟨[], []⟩).1 = DurClass.durationTooLong :=
  ⟨(measDuration_daily_threshold false
      ⟨[], [dailyTag], [], [], ⟨2024, 1, 1, 0, 0⟩, ⟨2024, 1, 1, 0, 0⟩,
        ⟨2024, 1, 1, 5, 18000⟩, [], []⟩ ⟨[], []⟩
      (List.mem_singleton.mpr rfl) rfl rfl rfl).1 (by norm_num [timeSub]),
   (measDuration_daily_threshold false
      ⟨[], [dailyTag], [], [], ⟨2024, 1, 1, 0, 0⟩, ⟨2024, 1, 1, 0, 0⟩,
        ⟨2024, 1, 1, 5, 18001⟩, [], []⟩ ⟨[], []⟩
      (List.mem_singleton.mpr rfl) rfl rfl rfl).2 (by norm_num [timeSub])⟩

/-- C5: a record whose start time is the sentinel zero value classifies
`DurationNone` (spec: `Unset`) and leaves both duration sample lists
untouched, regardless of its other fields. -/
theorem measDuration_sentinel_start (b : Bool) (m : Measurement) (st : DurState)
    (h : isZeroYMD m.startTime = true) :
    (measDuration b m st).1 = DurClass.durationNone ∧
    (measDuration b m st).2 = st := by
  unfold measDuration
  cases hc : isZeroYMD m.creationTime <;> simp [hc, h]

/-- C5 witness: a concrete record with sentinel start time classifies
`DurationNone` and appends no samples. -/
theorem measDuration_sentinel_start_witness :
    (measDuration false
      ⟨[], [dailyTag], [], [], ⟨2024, 1, 1, 0, 0⟩, ⟨1, 1, 1, 0, 0⟩,
        ⟨2024, 1, 1, 5, 18000⟩, [], []⟩ ⟨[42], [7]⟩).1 = DurClass.durationNone ∧
    (measDuration false
      ⟨[], [dailyTag], [], [], ⟨2024, 1, 1, 0, 0⟩, ⟨1, 1, 1, 0, 0⟩,
        ⟨2024, 1, 1, 5, 18000⟩, [], []⟩ ⟨[42], [7]⟩).2 = ⟨[42], [7]⟩ :=
  measDuration_sentinel_start false _ ⟨[42], [7]⟩ rfl

/-- C9: one `measDuration` step either appends exactly one sample to each
of the two duration lists or appends to neither, so equality of their
lengths is preserved. -/
theorem measDuration_lists_lockstep (b : Bool) (m : Measurement) (st : DurState) :
    (((measDuration b m st).2.durationCS.length = st.durationCS.length + 1 ∧
      (measDuration b m st).2.durationSE.length = st.durationSE.length + 1) ∨
     (measDuration b m st).2 = st) ∧
    (st.durationCS.length = st.durationSE.length →
      (measDuration b m st).2.durationCS.length =
        (measDuration b m st).2.durationSE.length) := by
  unfold measDuration
  cases hc : isZeroYMD m.creationTime
  case true => simp
  cases hs : isZeroYMD m.startTime
  case true => simp
  cases he : isZeroYMD m.endTime
  case true => simp
  cases ht : checkTooLong b m.tags (timeSub m.endTime m.startTime) durationClasses <;>
    simp +contextual

/-- C9 witness: a concrete step on equal-length lists keeps them at equal
length. -/
theorem measDuration_lists_lockstep_witness :
    (measDuration false
      ⟨[], [dailyTag], [], [], ⟨2024, 1, 1, 0, 0⟩, ⟨2024, 1, 1, 0, 0⟩,
        ⟨2024, 1, 1, 5, 18000⟩, [], []⟩ ⟨[3], [4]⟩).2.durationCS.length =
    (measDuration false
      ⟨[], [dailyTag], [], [], ⟨2024, 1, 1, 0, 0⟩, ⟨2024, 1, 1, 0, 0⟩,
        ⟨2024, 1, 1, 5, 18000⟩, [], []⟩ ⟨[3], [4]⟩).2.durationSE.length :=
  (measDuration_lists_lockstep false _ ⟨[3], [4]⟩).2 rfl

/-- `strings.Index(s, sub)`: position of the first contiguous occurrence
of `sub` in `s` (`none` models Go's `-1`). -/
def goIndex : GoStr → GoStr → Option Nat
  | [], sub => if sub.isPrefixOf [] then some 0 else none
  | c :: t, sub =>
    if sub.isPrefixOf (c :: t) then some 0
    else (goIndex t sub).map (· + 1)

/-- `goIndex` fails exactly when the pattern occurs nowhere. -/
theorem goIndex_eq_none_iff (s sub : GoStr) : goIndex s sub = none ↔ ¬ sub <:+: s := by
  induction s with
  | nil =>
    by_cases h : sub.isPrefixOf ([] : GoStr)
    · rw [goIndex, if_pos h]
      rw [List.isPrefixOf_iff_prefix, List.prefix_nil] at h
      simp [h, List.infix_nil]
    · rw [goIndex, if_neg h]
      rw [List.isPrefixOf_iff_prefix, List.prefix_nil] at h
      simp [List.infix_nil, h]
  | cons c t ih =>
    by_cases h : sub.isPrefixOf (c :: t)
    · rw [goIndex, if_pos h]
      rw [List.isPrefixOf_iff_prefix] at h
      simp [h.isInfix]
    · rw [goIndex, if_neg h]
      have h' : ¬ sub <+: (c :: t) := fun hp => h (List.isPrefixOf_iff_prefix.mpr hp)
      simp only [Option.map_eq_none', ih, List.infix_cons_iff]
      tauto

/-- The pattern occurs at the position `goIndex` reports. -/
theorem goIndex_prefix (s sub : GoStr) (i : Nat) (h : goIndex s sub = some i) :
    sub <+: s.drop i := by
  induction s generalizing i with
  | nil =>
    by_cases hp : sub.isPrefixOf ([] : GoStr)
    · rw [goIndex, if_pos hp] at h
      cases h
      simpa [List.isPrefixOf_iff_prefix] using hp
    · rw [goIndex, if_neg hp] at h
      cases h
  | cons c t ih =>
    by_cases hp : sub.isPrefixOf (c :: t)
    · rw [goIndex, if_pos hp] at h
      cases h
      simpa [List.isPrefixOf_iff_prefix] using hp
    · rw [goIndex, if_neg hp] at h
      obtain ⟨i', h', rfl⟩ := Option.map_eq_some'.mp h
      simpa using ih i' h'

/-- `goIndex` reports the first occurrence: no occurrence lies before it. -/
theorem goIndex_min (s sub : GoStr) (i : Nat) (h : goIndex s sub = some i) :
    ∀ j, sub <+: s.drop j → i ≤ j := by
  induction s generalizing i with
  | nil =>
    by_cases hp : sub.isPrefixOf ([] : GoStr)
    · rw [goIndex, if_pos hp] at h
      cases h
      exact fun j _ => Nat.zero_le j
    · rw [goIndex, if_neg hp] at h
      cases h
  | cons c t ih =>
    by_cases hp : sub.isPrefixOf (c :: t)
    · rw [goIndex, if_pos hp] at h
      cases h
      exact fun j _ => Nat.zero_le j
    · rw [goIndex, if_neg hp] at h
      obtain ⟨i', h', rfl⟩ := Option.map_eq_some'.mp h
      intro j hj
      match j with
      | 0 => exact absurd (List.isPrefixOf_iff_prefix.mpr (by simpa using hj)) hp
      | j' + 1 => exact Nat.succ_le_succ (ih i' h' j' (by simpa using hj))

/-- The double-underscore delimiter `"__"`. -/
def dunder : GoStr := ['_', '_']

/-- `strings.ReplaceAll(s, "_", "-")`. -/
def underToHyphen (s : GoStr) : GoStr := s.map fun c => if c == '_' then '-' else c

/-- If no `"__"` occurs in `a ++ "_"` then the first occurrence of `"__"`
in `a ++ "__" ++ rest` is exactly at position `a.length`. -/
theorem goIndex_append_dunder (a rest : GoStr) (h : ¬ dunder <:+: (a ++ ['_'])) :
    goIndex (a ++ (dunder ++ rest)) dunder = some a.length := by
  induction a with
  | nil =>
    have hp : dunder.isPrefixOf (([] : GoStr) ++ (dunder ++ rest)) := by
      simp [List.isPrefixOf_iff_prefix, List.prefix_append]
    rw [show ([] : GoStr) ++ (dunder ++ rest) = '_' :: '_' :: rest from rfl] at hp ⊢
    rw [goIndex, if_pos hp]
    rfl
  | cons c a' ih =>
    have hsub : ¬ dunder <:+: (a' ++ ['_']) := by
      intro hinf
      exact h (hinf.trans (List.suffix_cons c (a' ++ ['_'])).isInfix)
    have hnp : ¬ dunder.isPrefixOf (c :: (a' ++ (dunder ++ rest))) := by
      intro hpre
      rw [List.isPrefixOf_iff_prefix,
        show dunder = '_' :: ['_'] from rfl, List.cons_prefix_cons] at hpre
      obtain ⟨hc, h2⟩ := hpre
      apply h
      cases a' with
      | nil =>
        rw [← hc]
        exact List.infix_refl _
      | cons d a'' =>
        rw [List.cons_append, List.cons_prefix_cons] at h2
        obtain ⟨hd, -⟩ := h2
        rw [← hc, ← hd]
        exact (List.prefix_append dunder (a'' ++ ['_'])).isInfix
    rw [show (c :: a') ++ (dunder ++ rest) = c :: (a' ++ (dunder ++ rest)) from rfl,
      goIndex, if_neg hnp, ih hsub]
    rfl

/-- The error value `ErrInvalidTableName`. -/
inductive TableNameErr where
  | invalidTableName
deriving DecidableEq, Repr

/-- `analyze.parseMeasAgentUUIDs`: locate the first two `"__"`
delimiters; translate single underscores back to hyphens in the segment
between them (the measurement UUID) and return the remainder after the
second delimiter as the agent UUID. -/
def parseMeasAgentUUIDs (tableName : GoStr) : Except TableNameErr (GoStr × GoStr) :=
  match goIndex tableName dunder with
  | none => .error .invalidTableName
  | some idx =>
    let start := idx + 2
    match goIndex (tableName.drop start) dunder with
    | none => .error .invalidTableName
    | some stop =>
      let measUUID := underToHyphen ((tableName.drop start).take stop)
      let agentUUID := tableName.drop (stop + start + 2)
      .ok (measUUID, agentUUID)

/-- C8 counterexample: on the table name `"results__abc_d__ef_01"` the
parser translates underscores to hyphens in the measurement UUID but
returns the agent UUID verbatim (`"ef_01"`), not underscore-translated
(`"ef-01"`) as the claim states. -/
theorem parse_agent_uuid_not_translated_cex :
    parseMeasAgentUUIDs
        ['r','e','s','u','l','t','s','_','_','a','b','c','_','d','_','_','e','f','_','0','1'] =
      Except.ok (['a','b','c','-','d'], ['e','f','_','0','1']) ∧
    (['e','f','_','0','1'] : GoStr) ≠ underToHyphen ['e','f','_','0','1'] := by
  exact ⟨rfl, by decide⟩

/-- C8 amended: parsing errors with `ErrInvalidTableName` exactly when the
name does not decompose around two (sequential, non-overlapping)
occurrences of `"__"`; otherwise the segment between the first two
delimiters, with underscores translated to hyphens, is the measurement
UUID, and the remainder after the second delimiter is returned verbatim
(untranslated) as the agent UUID. -/
theorem parseMeasAgentUUIDs_charact (name : GoStr) :
    (parseMeasAgentUUIDs name = .error .invalidTableName ↔
      ¬ ∃ a b c, name = a ++ (dunder ++ (b ++ (dunder ++ c)))) ∧
    (∀ p q r, ¬ dunder <:+: (p ++ ['_']) → ¬ dunder <:+: (q ++ ['_']) →
      parseMeasAgentUUIDs (p ++ (dunder ++ (q ++ (dunder ++ r)))) =
        .ok (underToHyphen q, r)) := by
  constructor
  · constructor
    · intro herr
      rintro ⟨a, b, c, rfl⟩
      have hinf1 : dunder <:+: a ++ (dunder ++ (b ++ (dunder ++ c))) :=
        ⟨a, b ++ (dunder ++ c), by simp [List.append_assoc]⟩
      obtain ⟨i, hi⟩ : ∃ i, goIndex (a ++ (dunder ++ (b ++ (dunder ++ c)))) dunder = some i := by
        cases hgi : goIndex (a ++ (dunder ++ (b ++ (dunder ++ c)))) dunder with
        | none => exact absurd hinf1 ((goIndex_eq_none_iff _ _).mp hgi)
        | some i => exact ⟨i, rfl⟩
      have hile : i ≤ a.length := by
        refine goIndex_min _ _ _ hi a.length ?_
        have hd : (a ++ (dunder ++ (b ++ (dunder ++ c)))).drop a.length =
            dunder ++ (b ++ (dunder ++ c)) := List.drop_left a _
        rw [hd]
        exact List.prefix_append dunder _
      have hinf2 : dunder <:+: (a ++ (dunder ++ (b ++ (dunder ++ c)))).drop (i + 2) := by
        rw [show a ++ (dunder ++ (b ++ (dunder ++ c))) =
          ((a ++ dunder) ++ b) ++ (dunder ++ c) by simp [List.append_assoc]]
        rw [List.drop_append_eq_append_drop]
        have hle : i + 2 ≤ ((a ++ dunder) ++ b).length := by
          simp only [List.length_append, dunder, List.length_cons, List.length_nil]
          omega
        rw [Nat.sub_eq_zero_of_le hle, List.drop_zero]
        exact ⟨((a ++ dunder) ++ b).drop (i + 2), c, by simp [List.append_assoc]⟩
      obtain ⟨j, hj⟩ : ∃ j,
          goIndex ((a ++ (dunder ++ (b ++ (dunder ++ c)))).drop (i + 2)) dunder = some j := by
        cases hgj : goIndex ((a ++ (dunder ++ (b ++ (dunder ++ c)))).drop (i + 2)) dunder with
        | none => exact absurd hinf2 ((goIndex_eq_none_iff _ _).mp hgj)
        | some j => exact ⟨j, rfl⟩
      simp only [parseMeasAgentUUIDs, hi, hj] at herr
      cases herr
    · intro hno
      cases hgi : goIndex name dunder with
      | none => simp [parseMeasAgentUUIDs, hgi]
      | some i =>
        cases hgj : goIndex (name.drop (i + 2)) dunder with
        | none => simp [parseMeasAgentUUIDs, hgi, hgj]
        | some j =>
          exfalso
          apply hno
          obtain ⟨rest1, hrest1⟩ := goIndex_prefix _ _ _ hgi
          have hname : name = name.take i ++ (dunder ++ rest1) := by
            conv_lhs => rw [← List.take_append_drop i name, ← hrest1]
          have hdropi2 : name.drop (i + 2) = rest1 := by
            rw [← List.drop_drop 2 i name, ← hrest1]
            rfl
          have h2 : dunder <+: rest1.drop j := by
            rw [← hdropi2]
            exact goIndex_prefix _ _ _ hgj
          obtain ⟨rest2, hrest2⟩ := h2
          have hrest1eq : rest1 = rest1.take j ++ (dunder ++ rest2) := by
            conv_lhs => rw [← List.take_append_drop j rest1, ← hrest2]
          refine ⟨name.take i, rest1.take j, rest2, ?_⟩
          rw [← hrest1eq]
          exact hname
  · intro p q r hp hq
    have h1 := goIndex_append_dunder p (q ++ (dunder ++ r)) hp
    have hdrop1 : (p ++ (dunder ++ (q ++ (dunder ++ r)))).drop (p.length + 2) =
        q ++ (dunder ++ r) := by
      rw [show p ++ (dunder ++ (q ++ (dunder ++ r))) =
        (p ++ dunder) ++ (q ++ (dunder ++ r)) by simp [List.append_assoc]]
      exact List.drop_left' (by simp [dunder])
    have h2 := goIndex_append_dunder q r hq
    have htake : (q ++ (dunder ++ r)).take q.length = q := List.take_left' rfl
    have hdrop2 : (p ++ (dunder ++ (q ++ (dunder ++ r)))).drop
        (q.length + (p.length + 2) + 2) = r := by
      rw [show p ++ (dunder ++ (q ++ (dunder ++ r))) =
        (((p ++ dunder) ++ q) ++ dunder) ++ r by simp [List.append_assoc]]
      refine List.drop_left' ?_
      simp only [List.length_append, dunder, List.length_cons, List.length_nil]
      omega
    simp only [parseMeasAgentUUIDs, h1, hdrop1, h2, htake, hdrop2]

/-- C8 witness: `"probes__m1_m2__a1_a2"` parses into measurement UUID
`"m1-m2"` (translated) and agent UUID `"a1_a2"` (verbatim). -/
theorem parseMeasAgentUUIDs_charact_witness :
    parseMeasAgentUUIDs
        ['p','r','o','b','e','s','_','_','m','1','_','m','2','_','_','a','1','_','a','2'] =
      Except.ok (['m','1','-','m','2'], ['a','1','_','a','2']) :=
  (parseMeasAgentUUIDs_charact []).2
    ['p','r','o','b','e','s'] ['m','1','_','m','2'] ['a','1','_','a','2']
    (by decide) (by decide)

/-- The slice of `common.MeasurementBatch` the pagination loop inspects:
the `next` cursor (`none` models JSON `null`). -/
structure MeasurementBatch where
  next : Option GoStr

/-- A server behaviour: for the request at a given offset, either a
transport/write/decode failure (all of which return early in Go) or a
decoded batch. -/
abbrev MdServer := Nat → Except Unit MeasurementBatch

/-- The pagination loop of `meas.getMeasMdFile`:
`for offset := 0; offset < 10000; offset += limit` with `limit = 200`,
breaking when the response has no next page (`Next == nil || *Next == ""`)
and returning early on error. The result is the list of offsets actually
requested. Termination is forced by the loop guard: `10000 - offset`
decreases by each `offset += 200`. -/
def fetchLoop (server : MdServer) (offset : Nat) : List Nat :=
  if _h : offset < 10000 then
    match server offset with
    | .error _ => [offset]
    | .ok batch =>
      match batch.next with
      | none => [offset]
      | some s =>
        if s.isEmpty then [offset]
        else offset :: fetchLoop server (offset + 200)
  else []
termination_by 10000 - offset
decreasing_by omega

/-- The offsets requested by one invocation of `getMeasMdFile`. -/
def getMeasMdOffsets (server : MdServer) : List Nat := fetchLoop server 0

/-- Fuel-style bound: if `200 * n` steps are enough to reach the guard,
the loop issues at most `n` requests. -/
theorem fetchLoop_length_le (server : MdServer) :
    ∀ n offset, 10000 ≤ offset + 200 * n → (fetchLoop server offset).length ≤ n := by
  intro n
  induction n with
  | zero =>
    intro offset h
    rw [fetchLoop, dif_neg (by omega)]
    simp
  | succ n ih =>
    intro offset h
    rw [fetchLoop]
    split
    · split
      · simp
      · split
        · simp
        · split
          · simp
          · simpa using ih (offset + 200) (by omega)
    · simp

/-- Every requested offset lies in the window `[offset, 10000)` and is
congruent to the starting offset modulo 200. -/
theorem fetchLoop_mem (server : MdServer) :
    ∀ n offset, 10000 ≤ offset + 200 * n →
      ∀ o ∈ fetchLoop server offset, offset ≤ o ∧ o < 10000 ∧ (o - offset) % 200 = 0 := by
  intro n
  induction n with
  | zero =>
    intro offset h o ho
    rw [fetchLoop, dif_neg (by omega)] at ho
    cases ho
  | succ n ih =>
    intro offset h o ho
    rw [fetchLoop] at ho
    split at ho
    case isTrue hlt =>
      have hself : o = offset → offset ≤ o ∧ o < 10000 ∧ (o - offset) % 200 = 0 := by
        rintro rfl
        exact ⟨le_refl o, hlt, by omega⟩
      split at ho
      · exact hself (by simpa using ho)
      · split at ho
        · exact hself (by simpa using ho)
        · split at ho
          · exact hself (by simpa using ho)
          · rcases List.mem_cons.mp ho with rfl | htail
            · exact ⟨le_refl o, hlt, by omega⟩
            · obtain ⟨h1, h2, h3⟩ := ih (offset + 200) (by omega) o htail
              exact ⟨by omega, h2, by omega⟩
    case isFalse hlt =>
      cases ho

/-- On a server that always reports a next page, the loop runs its full
course: one request per guarded offset. -/
theorem fetchLoop_always_next :
    ∀ n offset, offset + 200 * n = 10000 →
      (fetchLoop (fun _ => Except.ok ⟨some ['x']⟩) offset).length = n := by
  intro n
  induction n with
  | zero =>
    intro offset h
    rw [fetchLoop, dif_neg (by omega)]
    rfl
  | succ n ih =>
    intro offset h
    rw [fetchLoop, dif_pos (by omega)]
    simpa using ih (offset + 200) (by omega)

/-- C10: the live metadata fetch loop issues at most 50 requests, all at
offsets `200 * k` with `k < 50`, for every server behaviour — and a
server that reports a next page on every response receives exactly 50
requests. -/
theorem getMeasMd_page_bound (server : MdServer) :
    (getMeasMdOffsets server).length ≤ 50 ∧
    (∀ o ∈ getMeasMdOffsets server, ∃ k, k < 50 ∧ o = 200 * k) ∧
    (getMeasMdOffsets (fun _ => Except.ok ⟨some ['x']⟩)).length = 50 := by
  refine ⟨fetchLoop_length_le server 50 0 (by omega), ?_, ?_⟩
  · intro o ho
    obtain ⟨-, h2, h3⟩ := fetchLoop_mem server 50 0 (by omega) o ho
    exact ⟨o / 200, by omega, by omega⟩
  · exact fetchLoop_always_next 50 0 (by omega)

/-- C10 witness: the always-next server receives exactly 50 requests and
never more. -/
theorem getMeasMd_page_bound_witness :
    (getMeasMdOffsets (fun _ => Except.ok ⟨some ['x']⟩)).length = 50 :=
  (getMeasMd_page_bound (fun _ => Except.ok ⟨some ['x']⟩)).2.2

/-- The loop of gonum's `empiricalQuantile` with nil weights: walk the
sorted sample accumulating unit weights and return the first sample whose
cumulative weight reaches `fidx` (Go: `cumsum++; if cumsum >= fidx`).
The empty case is Go's unreachable panic (`p <= 1` and a non-empty sample
guarantee the loop returns). -/
def empQuantLoop (fidx : ℚ) (cumsum : ℚ) : List ℚ → ℚ
  | [] => 0
  | x :: rest => if fidx ≤ cumsum + 1 then x else empQuantLoop fidx (cumsum + 1) rest

/-- gonum `stat.Quantile(p, stat.Empirical, x, nil)` for sorted `x`, in
exact rational arithmetic (`fidx := p * sumWeights` with
`sumWeights = float64(len(x))`). For the probabilities 0.5 and 0.9 used
by `printAnalysis`, the float64 computation of `fidx` rounds to exactly
the rational value for every realistic sample count, and the cumulative
unit weights are exact integers, so the model traces the float code. -/
def quantileEmpirical (p : ℚ) (x : List ℚ) : ℚ :=
  empQuantLoop (p * x.length) 0 x

/-- The duration figures printed by `analyze.printAnalysis` for one
sample list: minimum (first of the sorted list), maximum (last), median
(`Quantile(0.5, Empirical, ...)`) and P90 (`Quantile(0.9, ...)`). -/
structure DurStats where
  min : ℚ
  max : ℚ
  p50 : ℚ
  p90 : ℚ
deriving DecidableEq, Repr

/-- The duration-statistics block of `printAnalysis`: `sort.Float64s`
then index 0, index `len-1`, and the two quantiles. -/
def durationStats (xs : List ℚ) : DurStats :=
  let s := List.insertionSort (· ≤ ·) xs
  ⟨s.headD 0, s.getLastD 0, quantileEmpirical (1/2) s, quantileEmpirical (9/10) s⟩

/-- When the cumulative weight can reach `fidx` within the sample, the
quantile loop returns an element of the sample. -/
theorem empQuantLoop_mem (fidx : ℚ) :
    ∀ (xs : List ℚ) (cumsum : ℚ), xs ≠ [] → fidx ≤ cumsum + xs.length →
      empQuantLoop fidx cumsum xs ∈ xs := by
  intro xs
  induction xs with
  | nil => intro _ h; exact absurd rfl h
  | cons x rest ih =>
    intro cumsum _ hle
    rw [empQuantLoop]
    split
    · exact List.mem_cons_self _ _
    · rename_i hgt
      have hrest : rest ≠ [] := by
        intro hrnil
        rw [hrnil] at hle
        simp only [List.length_cons, List.length_nil] at hle
        exact hgt (by push_cast at hle; linarith)
      refine List.mem_cons_of_mem x (ih (cumsum + 1) hrest ?_)
      simp only [List.length_cons] at hle
      push_cast at hle ⊢
      linarith

/-- On a sorted sample the quantile loop is monotone in the target
cumulative weight. -/
theorem empQuantLoop_mono (fidx fidx' : ℚ) (hpf : fidx ≤ fidx') :
    ∀ (xs : List ℚ) (cumsum : ℚ), List.Sorted (· ≤ ·) xs → xs ≠ [] →
      fidx' ≤ cumsum + xs.length →
      empQuantLoop fidx cumsum xs ≤ empQuantLoop fidx' cumsum xs := by
  intro xs
  induction xs with
  | nil => intro _ _ h; exact absurd rfl h
  | cons x rest ih =>
    intro cumsum hs _ hle
    obtain ⟨hx, hrest⟩ := List.sorted_cons.mp hs
    rw [empQuantLoop, empQuantLoop]
    by_cases h1' : fidx' ≤ cumsum + 1
    · rw [if_pos h1', if_pos (le_trans hpf h1')]
    · rw [if_neg h1']
      have hrne : rest ≠ [] := by
        intro hrnil
        rw [hrnil] at hle
        simp only [List.length_cons, List.length_nil] at hle
        exact h1' (by push_cast at hle; linarith)
      have hlen : fidx' ≤ (cumsum + 1) + rest.length := by
        simp only [List.length_cons] at hle
        push_cast at hle ⊢
        linarith
      by_cases h1 : fidx ≤ cumsum + 1
      · rw [if_pos h1]
        exact hx _ (empQuantLoop_mem fidx' rest (cumsum + 1) hrne hlen)
      · rw [if_neg h1]
        exact ih (cumsum + 1) hrest hrne hlen

/-- In a sorted list the default-headed first element bounds every
member from below. -/
theorem sorted_headD_le (s : List ℚ) (hs : List.Sorted (· ≤ ·) s) :
    ∀ y ∈ s, ∀ d, s.headD d ≤ y := by
  cases s with
  | nil => intro y hy; cases hy
  | cons x rest =>
    intro y hy d
    rw [List.headD_cons]
    rcases List.mem_cons.mp hy with rfl | hy'
    · exact le_refl y
    · exact (List.sorted_cons.mp hs).1 y hy'

/-- In a sorted list the default-ended last element bounds every member
from above. -/
theorem sorted_le_getLastD (s : List ℚ) (hs : List.Sorted (· ≤ ·) s) :
    ∀ y ∈ s, ∀ d, y ≤ s.getLastD d := by
  induction s with
  | nil => intro y hy; cases hy
  | cons x rest ih =>
    intro y hy d
    rw [List.getLastD_cons]
    obtain ⟨hx, hrest⟩ := List.sorted_cons.mp hs
    rcases List.mem_cons.mp hy with rfl | hy'
    · cases rest with
      | nil => exact le_refl y
      | cons z rest' =>
        exact le_trans (hx z (List.mem_cons_self z rest'))
          (ih hrest z (List.mem_cons_self z rest') y)
    · exact ih hrest y hy' x

/-- The list `[1, ..., 10]` is already sorted. -/
theorem sorted_one_to_ten :
    List.Sorted (· ≤ ·) ([1,2,3,4,5,6,7,8,9,10] : List ℚ) := by
  norm_num [List.sorted_cons]

/-- Evaluation of the reported median on the sample list `[1, ..., 10]`. -/
theorem durationStats_ten_p50 :
    (durationStats [1,2,3,4,5,6,7,8,9,10]).p50 = 5 := by
  have hsort : List.insertionSort (· ≤ ·) ([1,2,3,4,5,6,7,8,9,10] : List ℚ) =
      [1,2,3,4,5,6,7,8,9,10] := List.Sorted.insertionSort_eq sorted_one_to_ten
  simp only [durationStats, hsort, quantileEmpirical]
  norm_num [empQuantLoop]

/-- C7 counterexample: for the sample list `[1, ..., 10]` the reported
median is 5, not 5.5 — gonum's Empirical cumulant kind returns an order
statistic of the sample without interpolating between order statistics. -/
theorem median_of_ten_not_interpolated_cex :
    (durationStats [1,2,3,4,5,6,7,8,9,10]).p50 = 5 ∧ (5 : ℚ) ≠ 11/2 := by
  constructor
  · exact durationStats_ten_p50
  · norm_num

/-- C7 amended: for the sample list `[1, ..., 10]` the reported median is
5 (the empirical quantile without interpolation), and for every non-empty
sample list the reported statistics are monotonic:
`min ≤ p50 ≤ p90 ≤ max`. -/
theorem duration_stats_amended (xs : List ℚ) (h : xs ≠ []) :
    (durationStats [1,2,3,4,5,6,7,8,9,10]).p50 = 5 ∧
    (durationStats xs).min ≤ (durationStats xs).p50 ∧
    (durationStats xs).p50 ≤ (durationStats xs).p90 ∧
    (durationStats xs).p90 ≤ (durationStats xs).max := by
  have hsorted : List.Sorted (· ≤ ·) (List.insertionSort (· ≤ ·) xs) :=
    List.sorted_insertionSort (· ≤ ·) xs
  have hne : List.insertionSort (· ≤ ·) xs ≠ [] := by
    intro hnil
    apply h
    have := (List.perm_insertionSort (· ≤ ·) xs).length_eq
    rw [hnil] at this
    exact List.length_eq_zero.mp this.symm
  set s := List.insertionSort (· ≤ ·) xs with hs
  have hlen : (0 : ℚ) ≤ (s.length : ℚ) := by positivity
  have h50 : (1/2 : ℚ) * s.length ≤ 0 + (s.length : ℚ) := by linarith
  have h90 : (9/10 : ℚ) * s.length ≤ 0 + (s.length : ℚ) := by linarith
  have hmem50 : quantileEmpirical (1/2) s ∈ s := empQuantLoop_mem _ s 0 hne h50
  have hmem90 : quantileEmpirical (9/10) s ∈ s := empQuantLoop_mem _ s 0 hne h90
  refine ⟨durationStats_ten_p50, ?_, ?_, ?_⟩
  · exact sorted_headD_le s hsorted _ hmem50 0
  · exact empQuantLoop_mono _ _ (by linarith) s 0 hsorted hne h90
  · exact sorted_le_getLastD s hsorted _ hmem90 0

/-- C7 witness: the monotonicity chain holds at the concrete sample list
`[1, ..., 10]`. -/
theorem duration_stats_amended_witness :
    (durationStats [1,2,3,4,5,6,7,8,9,10]).min ≤
      (durationStats [1,2,3,4,5,6,7,8,9,10]).p50 :=
  (duration_stats_amended [1,2,3,4,5,6,7,8,9,10] (by simp)).2.1

/-- A calendar date as `time.Parse("2006-01-02", ...)` would produce it. -/
structure GoDate where
  year : Nat
  month : Nat
  day : Nat
deriving DecidableEq, Repr

/-- Numeric value of an ASCII digit. -/
def digit (c : Char) : Nat := c.toNat - 48

/-- Day count of a month in the proleptic Gregorian calendar (Go's
`time` package validates the day of a parsed date against it). -/
def daysInMonth (y m : Nat) : Nat :=
  if m = 2 then if (y % 4 = 0 ∧ y % 100 ≠ 0) ∨ y % 400 = 0 then 29 else 28
  else if m = 4 ∨ m = 6 ∨ m = 9 ∨ m = 11 then 30 else 31

/-- `time.Parse("2006-01-02", value)`: the layout must consume the whole
value, so anything but exactly ten characters `yyyy-mm-dd` (with a valid
month and day) is an error — in particular a value with extra text after
the date, which Go rejects with `extra text`. -/
def goParseDateOnly : GoStr → Except Unit GoDate
  | [y1, y2, y3, y4, s1, m1, m2, s2, d1, d2] =>
    if y1.isDigit && y2.isDigit && y3.isDigit && y4.isDigit && s1 == '-' &&
       m1.isDigit && m2.isDigit && s2 == '-' && d1.isDigit && d2.isDigit then
      let y := ((digit y1 * 10 + digit y2) * 10 + digit y3) * 10 + digit y4
      let m := digit m1 * 10 + digit m2
      let d := digit d1 * 10 + digit d2
      if 1 ≤ m ∧ m ≤ 12 ∧ 1 ≤ d ∧ d ≤ daysInMonth y m then .ok ⟨y, m, d⟩
      else .error ()
    else .error ()
  | _ => .error ()

/-- The constant `FirstMeasurementDate = "2020-01-01T00:00:00.000"`. -/
def firstMeasurementDate : GoStr :=
  ['2','0','2','0','-','0','1','-','0','1','T','0','0',':','0','0',':','0','0','.','0','0','0']

/-- The 24 hour keys `"00"` .. `"23"`. -/
def hoursList : List GoStr :=
  [['0','0'], ['0','1'], ['0','2'], ['0','3'], ['0','4'], ['0','5'],
   ['0','6'], ['0','7'], ['0','8'], ['0','9'], ['1','0'], ['1','1'],
   ['1','2'], ['1','3'], ['1','4'], ['1','5'], ['1','6'], ['1','7'],
   ['1','8'], ['1','9'], ['2','0'], ['2','1'], ['2','2'], ['2','3']]

/-- Go map assignment `m[k] = v`, modelled on an association list:
replace the binding if the key is present, append it otherwise. -/
def assocSet {α : Type} : List (GoStr × α) → GoStr → α → List (GoStr × α)
  | [], k, v => [(k, v)]
  | (k', v') :: rest, k, v =>
    if k' == k then (k, v) :: rest else (k', v') :: assocSet rest k v

/-- Go map read `m[k]` (`none` for an absent key). -/
def assocGet {α : Type} : List (GoStr × α) → GoStr → Option α
  | [], _ => none
  | (k', v') :: rest, k => if k' == k then some v' else assocGet rest k

/-- The hour-to-count map of one date. -/
abbrev HourMap := List (GoStr × Nat)

/-- The date-to-hours grid `map[string]map[string]int`. -/
abbrev Grid := List (GoStr × HourMap)

/-- The inner loop of `initHoursTable` for one date: for each hour the
code executes `measPerHour[dateStr] = make(map[string]int)` and then
`measPerHour[dateStr][hour] = 0`, i.e. it resets the date's entry to the
singleton map of the current hour on every iteration. -/
def fillOneDate (g : Grid) (dateStr : GoStr) : Grid :=
  hoursList.foldl (fun g' hour => assocSet g' dateStr [(hour, 0)]) g

/-- `analyze.initHoursTable`: parse `FirstMeasurementDate` with layout
`"2006-01-02"`, then walk one day at a time up to `time.Now()` filling
the grid. The day enumeration (`AddDate(0, 0, 1)` plus `Format`) is
abstracted as the parameter `days`, since the parse fails before the loop
is ever reached. -/
def initHoursTable (days : List GoStr) : Except Unit Grid :=
  match goParseDateOnly firstMeasurementDate with
  | .error e => .error e
  | .ok _ => .ok (days.foldl fillOneDate [])

/-- A key just assigned reads back its value. -/
theorem assocGet_assocSet {α : Type} (m : List (GoStr × α)) (k : GoStr) (v : α) :
    assocGet (assocSet m k v) k = some v := by
  induction m with
  | nil => simp [assocSet, assocGet]
  | cons p rest ih =>
    obtain ⟨k', v'⟩ := p
    by_cases h : k' == k
    · simp [assocSet, h, assocGet]
    · simp [assocSet, h, assocGet, ih]

/-- After the inner loop runs for a date, that date's entry holds only
the single key `"23"` — not 24 zero-initialized hours. -/
theorem fillOneDate_lookup (g : Grid) (d : GoStr) :
    assocGet (fillOneDate g d) d = some [(['2','3'], 0)] := by
  simp only [fillOneDate, hoursList, List.foldl_cons, List.foldl_nil]
  exact assocGet_assocSet _ _ _

/-- C3 (code bug): `initHoursTable` never yields the dense grid the spec
describes. Its `time.Parse("2006-01-02", FirstMeasurementDate)` call
fails because `FirstMeasurementDate` is `"2020-01-01T00:00:00.000"` and
the layout consumes only `"2020-01-01"`, leaving extra text, so the
function always returns an error; and even with a parsable start date,
the inner loop re-creates the date's hour map on every iteration, so
each date would end up with the single hour key `"23"` instead of all 24
zero-initialized buckets. -/
theorem initHoursTable_error :
    (∀ days : List GoStr, initHoursTable days = .error ()) ∧
    (∀ (g : Grid) (d : GoStr),
      assocGet (fillOneDate g d) d = some [(['2','3'], 0)]) :=
  ⟨fun _ => rfl, fillOneDate_lookup⟩

/-- C3 witness: the failure at a concrete day list. -/
theorem initHoursTable_error_witness :
    initHoursTable [['2','0','2','0','-','0','1','-','0','1']] = .error () :=
  initHoursTable_error.1 _

/-- `analyze.MeasTable`. `ModTime` is held in Go as a string and parsed
with layout `"2006-01-02 15:04:05"` inside `printTables`; the model
carries the parsed instant directly. -/
structure MeasTable where
  name : GoStr
  modTime : GoTime
  rows : Int
  bytes : Int
deriving DecidableEq, Repr

/-- The time-window filter of `printTables`:
`modTime.After(fAnalyzeAfter) && modTime.Before(fAnalyzeBefore)`. -/
def tableInWindow (after before : GoTime) (t : MeasTable) : Bool :=
  timeAfter t.modTime after && timeBefore t.modTime before

/-- The per-table anomaly test of `printTableDetails`:
`rows == 0 || bytes == 0` flags `<== WARNING: expected > 0`. -/
def zeroRowWarning (t : MeasTable) : Bool := t.rows == 0 || t.bytes == 0

/-- Go `sort.Strings` order: byte-lexicographic comparison. -/
def strLe : GoStr → GoStr → Bool
  | [], _ => true
  | _ :: _, [] => false
  | a :: as, b :: bs => if a < b then true else if b < a then false else strLe as bs

/-- Insertion step of the sort used to model `sortByKey`. -/
def insertSorted (x : GoStr) : List GoStr → List GoStr
  | [] => [x]
  | y :: rest => if strLe x y then x :: y :: rest else y :: insertSorted x rest

/-- `analyze.sortByKey`: the map's keys in ascending string order. -/
def sortKeys (ks : List GoStr) : List GoStr := ks.foldr insertSorted []

/-- The loop of `printTableDetails` over the sorted table names: re-parse
the name (the error cannot happen for names already parsed by
`printTables`, where Go panics), resolve the agent hostname, apply the
`--agent` allow-list, and collect the names flagged with the zero-row
warning. `agentName` models the `agents.GetAgentName` directory. -/
def detailLoop (agentsAllow : List GoStr) (agentName : GoStr → GoStr)
    (data : List (GoStr × MeasTable)) : List GoStr → Except TableNameErr (List GoStr)
  | [] => .ok []
  | n :: rest =>
    match parseMeasAgentUUIDs n with
    | .error e => .error e
    | .ok (_, agentUUID) =>
      let h := agentName (underToHyphen agentUUID)
      let skip := !agentsAllow.isEmpty && !agentsAllow.contains h
      match detailLoop agentsAllow agentName data rest with
      | .error e => .error e
      | .ok restWs =>
        match assocGet data n with
        | none => .ok restWs
        | some t =>
          if skip then .ok restWs
          else if zeroRowWarning t then .ok (n :: restWs) else .ok restWs

/-- `analyze.printTableDetails`, reduced to its observable flags: the
table names it prints with the zero-row warning, in sorted order. -/
def detailWarnings (agentsAllow : List GoStr) (agentName : GoStr → GoStr)
    (data : List (GoStr × MeasTable)) : Except TableNameErr (List GoStr) :=
  detailLoop agentsAllow agentName data (sortKeys (data.map Prod.fst))

/-- The loop of `analyze.printTables`: skip tables outside the time
window, parse each remaining name (a parse error aborts), flush the
accumulated per-measurement `data` map whenever the embedded measurement
UUID changes, and at the end print the details of the last group. The
result is the concatenated list of zero-row-warned table names. -/
def printTablesLoop (after before : GoTime) (agentsAllow : List GoStr)
    (agentName : GoStr → GoStr) :
    List MeasTable → GoStr → List (GoStr × MeasTable) →
      Except TableNameErr (List GoStr)
  | [], _, data => detailWarnings agentsAllow agentName data
  | t :: rest, prevUUID, data =>
    if tableInWindow after before t then
      match parseMeasAgentUUIDs t.name with
      | .error e => .error e
      | .ok (measUUID, _) =>
        let prev := if prevUUID.isEmpty then measUUID else prevUUID
        if prev == measUUID then
          printTablesLoop after before agentsAllow agentName rest prev
            (assocSet data t.name t)
        else
          match detailWarnings agentsAllow agentName data with
          | .error e => .error e
          | .ok ws =>
            match printTablesLoop after before agentsAllow agentName rest measUUID
                (assocSet [] t.name t) with
            | .error e => .error e
            | .ok ws' => .ok (ws ++ ws')
    else printTablesLoop after before agentsAllow agentName rest prevUUID data

/-- `analyze.printTables` (`prevMeasUUID` starts out empty, `data`
empty), reduced to its flags. -/
def printTables (after before : GoTime) (agentsAllow : List GoStr)
    (agentName : GoStr → GoStr) (ts : List MeasTable) :
    Except TableNameErr (List GoStr) :=
  printTablesLoop after before agentsAllow agentName ts [] []

/-- The observable outcome of one iteration of
`analyzeTablesByMeasurement` for one measurement. -/
structure TablesCheck where
  nFound : Nat
  nExpected : Nat
  countError : Bool
  warnings : List GoStr
deriving DecidableEq, Repr

/-- The body of the `analyzeTablesByMeasurement` loop for one measurement
`m` whose catalog lookup returned `ts`: `none` when the measurement is
skipped (filter mismatch, `--meas-uuid` mismatch, or zero agents);
otherwise `nFound = len(measTables)` is compared against
`nExpected = len(measurement.Agents) * 4` (the `<== ERROR: expected N`
flag) before `printTables` collects the per-table warnings. -/
def checkOneMeasTables (f : AnalyzeFilter) (uuidFilter : GoStr)
    (agentsAllow : List GoStr) (agentName : GoStr → GoStr)
    (m : Measurement) (ts : List MeasTable) :
    Option (Except TableNameErr TablesCheck) :=
  if measSkip f m || (!uuidFilter.isEmpty && uuidFilter != m.uuid) then none
  else if m.agents.length == 0 then none
  else some (
    match printTables f.after f.before agentsAllow agentName ts with
    | .error e => .error e
    | .ok ws =>
      .ok ⟨ts.length, 4 * m.agents.length,
           ts.length != 4 * m.agents.length, ws⟩)

/-- A modification time inside the default time window. -/
def tblModTime : GoTime := ⟨2024, 1, 1, 0, 50⟩

/-- A filter that matches everything: no tag or state constraints and a
wide time window. -/
def demoFilter : AnalyzeFilter := ⟨⟨2020,1,1,0,0⟩, ⟨2030,1,1,0,100⟩, [], [], false⟩

/-- Three agents. -/
def demoAgents : List Agent := [⟨['a','1'], []⟩, ⟨['a','2'], []⟩, ⟨['a','3'], []⟩]

/-- A three-agent measurement with UUID `"m1"` inside the window. -/
def demoMeas : Measurement :=
  ⟨[], [], ['m','1'], [], ⟨2024,1,1,0,50⟩, ⟨2024,1,1,0,60⟩, ⟨2024,1,1,0,70⟩,
   ['o','n','g','o','i','n','g'], demoAgents⟩

/-- A catalog table `"<k>__m1__a<a2>"` with the given row count. -/
def demoTbl (k a2 : Char) (rows : Int) : MeasTable :=
  ⟨[k,'_','_','m','1','_','_','a',a2], tblModTime, rows, 7⟩

/-- Exactly 12 matching tables (4 kinds x 3 agents), one with zero rows. -/
def demoTables12 : List MeasTable :=
  [demoTbl 'l' '1' 5, demoTbl 'l' '2' 5, demoTbl 'l' '3' 5,
   demoTbl 'p' '1' 5, demoTbl 'p' '2' 5, demoTbl 'p' '3' 5,
   demoTbl 'q' '1' 5, demoTbl 'q' '2' 5, demoTbl 'q' '3' 0,
   demoTbl 'r' '1' 5, demoTbl 'r' '2' 5, demoTbl 'r' '3' 5]

/-- Only 11 matching tables, none of them empty. -/
def demoTables11 : List MeasTable :=
  [demoTbl 'l' '1' 5, demoTbl 'l' '2' 5, demoTbl 'l' '3' 5,
   demoTbl 'p' '1' 5, demoTbl 'p' '2' 5, demoTbl 'p' '3' 5,
   demoTbl 'q' '1' 5, demoTbl 'q' '2' 5, demoTbl 'q' '3' 5,
   demoTbl 'r' '1' 5, demoTbl 'r' '2' 5]

/-- C6: for every measurement that reaches the check (not skipped, at
least one agent), the expected-count error is flagged exactly when the
number of matching catalog tables differs from `4 * len(agents)`;
concretely, a 3-agent measurement with 11 tables is flagged with the
count mismatch (and no zero-row warning), while one with exactly 12
tables, one of which has zero rows, gets only that table's zero-row
warning and no count mismatch. -/
theorem tables_expected_count :
    (∀ (f : AnalyzeFilter) (uuidFilter : GoStr) (agentsAllow : List GoStr)
       (agentName : GoStr → GoStr) (m : Measurement) (ts : List MeasTable)
       (r : TablesCheck),
       checkOneMeasTables f uuidFilter agentsAllow agentName m ts = some (.ok r) →
       (r.countError = true ↔ ts.length ≠ 4 * m.agents.length)) ∧
    checkOneMeasTables demoFilter [] [] (fun _ => ['h']) demoMeas demoTables11 =
      some (.ok ⟨11, 12, true, []⟩) ∧
    checkOneMeasTables demoFilter [] [] (fun _ => ['h']) demoMeas demoTables12 =
      some (.ok ⟨12, 12, false, [['q','_','_','m','1','_','_','a','3']]⟩) := by
  refine ⟨?_, rfl, rfl⟩
  intro f uuidFilter aAllow aName m ts r h
  unfold checkOneMeasTables at h
  split at h
  · cases h
  · split at h
    · cases h
    · rw [Option.some.injEq] at h
      split at h
      · cases h
      · injection h with h
        rw [← h]
        exact bne_iff_ne

/-- C6 witness: the count-mismatch criterion instantiated at the
12-table scenario. -/
theorem tables_expected_count_witness :
    ((⟨12, 12, false, [['q','_','_','m','1','_','_','a','3']]⟩ : TablesCheck).countError
        = true ↔
      demoTables12.length ≠ 4 * demoMeas.agents.length) :=
  tables_expected_count.1 demoFilter [] [] (fun _ => ['h']) demoMeas demoTables12
    ⟨12, 12, false, [['q','_','_','m','1','_','_','a','3']]⟩ rfl

end Irisctl
